import Mathlib

/-!
Shallow embedding of the rememex frontend (the App component in
`src/unnamed/part_005`, `Sidebar.tsx`, `ResultsList.tsx`, the status bar in
`src/unnamed/part_002`, and `ProviderSettings.tsx`), together with a
spec-level model of the final stages of the retrieval pipeline
(normalisation, ordering, per-file deduplication, filtering), which live in
the backend that is not part of this source tree.

JavaScript numbers that are in practice integral are modelled as `Nat` or
`Int`; fractional scores are modelled as `ℚ`.  Localised UI strings are
modelled abstractly as the `(key, substitutions)` pair handed to the `t`
translation function, since the locale templates are not part of this
source tree.
-/

namespace Rememex

/-- Whitespace recognised by the JavaScript string `trim` (the common
whitespace set: space, tab, line feed, carriage return, vertical tab,
form feed, no-break space, BOM). -/
def isJsWhitespace (c : Char) : Bool :=
  c == ' ' || c == '\t' || c == '\n' || c == '\r' ||
  c == '\x0B' || c == '\x0C' || c == ' ' || c == '﻿'

/-- Model of the JavaScript `String.prototype.trim`. -/
def jsTrim (s : String) : String :=
  ⟨((s.toList.dropWhile isJsWhitespace).reverse.dropWhile isJsWhitespace).reverse⟩

/-- Model of the JavaScript `String.prototype.startsWith`. -/
def strStartsWith (s pre : String) : Bool :=
  pre.toList.isPrefixOf s.toList

/-- Drop the first `n` characters of a string. -/
def strDrop (s : String) (n : Nat) : String :=
  ⟨s.toList.drop n⟩

/-- Model of the JavaScript `String.prototype.includes`. -/
def strContainsSub (s sub : String) : Bool :=
  s.toList.tails.any fun t => sub.toList.isPrefixOf t

/-- Replace the first occurrence of `pat` in a character list by `repl`
(the semantics of the JavaScript `String.prototype.replace` with a string
pattern). -/
def listReplaceFirst (pat repl : List Char) : List Char → List Char
  | [] => if pat.isPrefixOf ([] : List Char) then repl else []
  | c :: cs =>
    if pat.isPrefixOf (c :: cs) then repl ++ (c :: cs).drop pat.length
    else c :: listReplaceFirst pat repl cs

/-- Model of the JavaScript `s.replace(pat, repl)` for a string pattern:
only the first occurrence is replaced. -/
def replaceFirstStr (s pat repl : String) : String :=
  ⟨listReplaceFirst pat.toList repl.toList s.toList⟩

/-- Numeric value of a list of decimal digit characters. -/
def digitsVal (l : List Char) : Nat :=
  l.foldl (fun a c => a * 10 + (c.toNat - '0'.toNat)) 0

/-- Model of the JavaScript `Number.parseInt(s, 10)`: skip leading
whitespace, read an optional sign, then the longest prefix of decimal
digits; `none` models `NaN` (no digits found). -/
def jsParseInt (s : String) : Option Int :=
  match s.toList.dropWhile isJsWhitespace with
  | '-' :: t =>
    let ds := t.takeWhile Char.isDigit
    if ds.isEmpty then none else some (-(digitsVal ds : Int))
  | '+' :: t =>
    let ds := t.takeWhile Char.isDigit
    if ds.isEmpty then none else some (digitsVal ds)
  | t =>
    let ds := t.takeWhile Char.isDigit
    if ds.isEmpty then none else some (digitsVal ds)

/-- Payload of an `indexing-progress` event (`{current, total, path}`). -/
structure IndexingProgress where
  current : Nat
  total : Nat
  path : String
deriving DecidableEq

/-- A search result as consumed by the frontend (`types.ts`):
owning path, snippet, score. -/
structure SearchResult where
  path : String
  snippet : String
  score : ℚ
deriving DecidableEq

/-- The status line of the app.  `raw` is a plain string set directly by
`setStatus`; `localized` is the `(key, substitutions)` pair handed to the
`t` translation function of `i18n.tsx`, which substitutes each value into
the locale template for the key. -/
inductive StatusText where
  | raw (s : String)
  | localized (key : String) (args : List (String × String))
deriving DecidableEq

/-- Whether the status line carries the string `m`: either it is shown
verbatim or it is among the values substituted into the locale template. -/
def StatusText.carries : StatusText → String → Bool
  | .raw s, m => s == m
  | .localized _ args, m => args.any fun a => a.2 == m

/-- The React state of the `App` component in `src/unnamed/part_005` that
the claims are about (`results`, `selectedIndex`, `status`, `isIndexing`,
`indexProgress`) plus the `searchGenRef` generation counter. -/
structure AppState where
  results : List SearchResult
  selectedIndex : Nat
  status : StatusText
  isIndexing : Bool
  indexProgress : Option IndexingProgress
  searchGen : Nat
deriving DecidableEq

/-- Split a character list at every character satisfying `p` (the pieces
of the JavaScript `split` on a single-character regex class). -/
def splitChars (p : Char → Bool) : List Char → List (List Char)
  | [] => [[]]
  | c :: cs =>
    match splitChars p cs with
    | [] => if p c then [[], []] else [[c]]
    | h :: t => if p c then [] :: h :: t else (c :: h) :: t

/-- `getFileName` from `src/unnamed/part_005`:
`path.split(/[\\/]/).pop() || path`. -/
def getFileName (path : String) : String :=
  let parts := splitChars (fun c => c == '/' || c == '\\') path.toList
  match parts.getLast? with
  | some s => if s.isEmpty then path else ⟨s⟩
  | none => path

/-- The `indexing-progress` listener of `src/unnamed/part_005`
(lines 241–245). -/
def onIndexingProgress (p : IndexingProgress) (s : AppState) : AppState :=
  { s with
    status := .raw ("Indexing: " ++ getFileName p.path)
    indexProgress := some p
    isIndexing := true }

/-- The `indexing-complete` listener of `src/unnamed/part_005`
(lines 247–252). -/
def onIndexingComplete (message : String) (s : AppState) : AppState :=
  { s with
    status := .localized "status_done" [("message", message)]
    isIndexing := false
    indexProgress := none }

/-- The `model-loaded` listener of `src/unnamed/part_005`
(lines 254–258). -/
def onModelLoaded (s : AppState) : AppState :=
  { s with
    status := .raw ""
    isIndexing := false
    indexProgress := none }

/-- The `model-load-error` listener of `src/unnamed/part_005`
(lines 260–264). -/
def onModelLoadError (reason : String) (s : AppState) : AppState :=
  { s with
    status := .localized "status_model_error" [("error", reason)]
    isIndexing := false
    indexProgress := none }

/-- Model of the JavaScript `Math.round` on a (non-`NaN`) rational:
round half away from zero is `⌊q + 1/2⌋` for the nonnegative values that
occur here. -/
def jsRound (q : ℚ) : ℤ :=
  Int.floor (q + 1 / 2)

/-- The `pct` computation of the status bar (`src/unnamed/part_002`,
lines 19–21): `indexProgress && indexProgress.total > 0 ?
Math.round((current / total) * 100) : 0`. -/
def statusBarPct (p : Option IndexingProgress) : ℤ :=
  match p with
  | none => 0
  | some ip =>
    if 0 < ip.total then jsRound ((ip.current : ℚ) / (ip.total : ℚ) * 100)
    else 0

/-- `handleResetIndex` of `src/unnamed/part_005` (lines 301–313), as a
state transformer indexed by the outcome of the `reset_index` command:
the clearing status and the indexing flag are set, then on success the
results are emptied and the cleared status is shown, on rejection the
error text is shown; the indexing flag ends up false either way. -/
def handleResetIndex (s : AppState) (outcome : Except String Unit) : AppState :=
  let s1 : AppState := { s with status := .localized "status_clearing" [], isIndexing := true }
  match outcome with
  | Except.ok _ =>
    { s1 with results := [], status := .localized "status_cleared" [], isIndexing := false }
  | Except.error e =>
    { s1 with status := .raw e, isIndexing := false }

/-- `handleDeleteContainer` of `src/unnamed/part_005` (lines 165–185):
returns `some name` exactly when the `delete_container` command is
invoked with that container name; returns immediately for `"Default"`,
and otherwise invokes only after the confirmation dialog is accepted. -/
def handleDeleteContainer (activeContainer : String) (confirmedByUser : Bool) : Option String :=
  if activeContainer = "Default" then none
  else if confirmedByUser then some activeContainer
  else none

/-- The delete-button guard of `Sidebar.tsx` (line 143):
the button is rendered only when `activeContainer !== "Default"`. -/
def deleteButtonRendered (activeContainer : String) : Bool :=
  activeContainer != "Default"

/-- The body of the search effect of `src/unnamed/part_005`
(lines 276–299) up to scheduling: an empty trimmed query clears the
results and schedules nothing (`none`); otherwise the generation counter
is bumped and a search with that generation is scheduled (`some gen`). -/
def scheduleSearchEffect (s : AppState) (query : String) : AppState × Option Nat :=
  if jsTrim query = "" then ({ s with results := [] }, none)
  else ({ s with searchGen := s.searchGen + 1 }, some (s.searchGen + 1))

/-- Arrival of a successful `search` response tagged with generation
`gen` (`src/unnamed/part_005`, lines 284–287): dropped unless `gen` is
the current generation, otherwise the results are installed and the
selection reset. -/
def onSearchSuccess (s : AppState) (gen : Nat) (res : List SearchResult) : AppState :=
  if s.searchGen ≠ gen then s
  else { s with results := res, selectedIndex := 0 }

/-- Arrival of a rejected `search` response tagged with generation `gen`
(`src/unnamed/part_005`, lines 288–296): dropped unless `gen` is the
current generation, otherwise the status is set from the message. -/
def onSearchFailure (s : AppState) (gen : Nat) (msg : String) : AppState :=
  if s.searchGen ≠ gen then s
  else
    { s with
      status :=
        if strContainsSub msg "rebuild" || strContainsSub msg "Model changed" then
          .localized "status_rebuild_needed" []
        else .raw msg }

/-- The annotation test of `ResultsList.tsx` (line 44):
`result.snippet?.startsWith("[annotation]")`. -/
def isAnnotationTag (r : SearchResult) : Bool :=
  strStartsWith r.snippet "[annotation]"

/-- What a rendered result row shows, as far as the claims are
concerned. -/
structure RowView where
  showsAnnotationIcon : Bool
  showsAnnotationBadge : Bool
  displayedSnippet : String
deriving DecidableEq

/-- The `Row` component of `ResultsList.tsx` (lines 41–88): the
annotation icon (line 56) and badge (line 62) are rendered iff the
snippet starts with `"[annotation]"`; the displayed snippet (line 79) is
`snippet.replace("[annotation] ", "")` for annotations and otherwise the
snippet itself, or the no-preview text when it is empty. -/
def renderRow (r : SearchResult) (noPreviewText : String) : RowView :=
  let isAnnot := isAnnotationTag r
  { showsAnnotationIcon := isAnnot
    showsAnnotationBadge := isAnnot
    displayedSnippet :=
      if isAnnot then replaceFirstStr r.snippet "[annotation] " ""
      else if r.snippet = "" then noPreviewText
      else r.snippet }

/-- The claim's reading of "the marker prefix stripped from the displayed
snippet": the leading `"[annotation] "` marker removed when present. -/
def claimStrippedSnippet (s : String) : String :=
  if strStartsWith s "[annotation] " then strDrop s 13 else s

/-- The JavaScript idiom `Number.parseInt(s, 10) || 1024`: `NaN` and `0`
are falsy and replaced by the default, every other parse (negative values
included) passes through. -/
def jsParseIntOr1024 (s : String) : Int :=
  match jsParseInt s with
  | none => 1024
  | some n => if n = 0 then 1024 else n

/-- The remote dimension committed by `ProviderSettings.tsx`
(lines 168–169): `Number.parseInt(remoteDimsDraft, 10) || 1024`. -/
def providerSettingsRemoteDimensions (draft : String) : Int :=
  jsParseIntOr1024 draft

/-- The remote dimension passed by `handleCreateContainer` of
`src/unnamed/part_005` (line 144):
`Number.parseInt(step2.values.dimensions || "1024", 10) || 1024`. -/
def createContainerRemoteDimensions (input : String) : Int :=
  jsParseIntOr1024 (if input = "" then "1024" else input)

/-- Modelled from the spec: a retrieval candidate of §4.8 — the retrieval
pipeline itself is in the backend, which is not part of this source tree.
A candidate carries the fragment's owning path, its ordinal within the
file, and its current score. -/
structure Candidate where
  fragmentId : Nat
  path : String
  ordinal : Nat
  text : String
  score : ℚ
deriving DecidableEq

/-- Modelled from the spec: the response ordering of §3 ("Ordering within
a response is by descending score; ties broken by fragment ordinal then
path") and the determinism note of §4.8. -/
def ResultPrecedes (a b : Candidate) : Prop :=
  b.score < a.score ∨
    (a.score = b.score ∧
      (a.ordinal < b.ordinal ∨ (a.ordinal = b.ordinal ∧ a.path ≤ b.path)))

instance (a b : Candidate) : Decidable (ResultPrecedes a b) := by
  unfold ResultPrecedes
  exact inferInstance

/-- Insert a candidate into a list sorted by `ResultPrecedes`. -/
def insertResult (c : Candidate) : List Candidate → List Candidate
  | [] => [c]
  | d :: ds =>
    if ResultPrecedes c d then c :: d :: ds
    else d :: insertResult c ds

/-- Modelled from the spec: sorting of the candidate set into response
order (§4.8 step 5 "Sort descending" together with the tie-break rule),
realised as insertion sort by `ResultPrecedes`. -/
def sortResults : List Candidate → List Candidate
  | [] => []
  | c :: cs => insertResult c (sortResults cs)

/-- Per-file deduplication with an accumulator of already-seen paths:
keeps the first candidate of each owning path. -/
def dedupeAux (seen : List String) : List Candidate → List Candidate
  | [] => []
  | c :: cs =>
    if c.path ∈ seen then dedupeAux seen cs
    else c :: dedupeAux (c.path :: seen) cs

/-- Modelled from the spec: §4.8 step 9 "Deduplicate per file. At most one
fragment per owning path survives (the highest-scoring)."  On a list in
descending-score order, keeping the first candidate of each path keeps
the highest-scoring one. -/
def dedupeByPath (l : List Candidate) : List Candidate :=
  dedupeAux [] l

/-- Modelled from the spec: §4.8 step 8 "when the reranker is skipped,
normalize RRF scores to the same range [0, 100] using min-max over the
candidate set".  The degenerate all-equal candidate set (min = max) is
mapped to 100. -/
def normalizeMinMax : List Candidate → List Candidate
  | [] => []
  | c :: cs =>
    let lo := cs.foldl (fun a x => min a x.score) c.score
    let hi := cs.foldl (fun a x => max a x.score) c.score
    (c :: cs).map fun x =>
      { x with
        score := if hi = lo then 100 else (x.score - lo) / (hi - lo) * 100 }

/-- Modelled from the spec: the final stages of the retrieval pipeline of
§4.8 applied to an arbitrary fused candidate set — step 8 (normalise to
[0, 100]), response ordering, step 9 (per-file dedup) and step 10 (drop
below `min_score`, return top-k). -/
def searchPipeline (cands : List Candidate) (minScore : ℚ) (topK : Nat) :
    List Candidate :=
  ((dedupeByPath (sortResults (normalizeMinMax cands))).filter
      fun c => minScore ≤ c.score).take topK

theorem resultPrecedes_total (a b : Candidate) :
    ResultPrecedes a b ∨ ResultPrecedes b a := by
  unfold ResultPrecedes
  rcases lt_trichotomy a.score b.score with h | h | h
  · exact Or.inr (Or.inl h)
  · rcases Nat.lt_trichotomy a.ordinal b.ordinal with ho | ho | ho
    · exact Or.inl (Or.inr ⟨h, Or.inl ho⟩)
    · rcases le_total a.path b.path with hp | hp
      · exact Or.inl (Or.inr ⟨h, Or.inr ⟨ho, hp⟩⟩)
      · exact Or.inr (Or.inr ⟨h.symm, Or.inr ⟨ho.symm, hp⟩⟩)
    · exact Or.inr (Or.inr ⟨h.symm, Or.inl ho⟩)
  · exact Or.inl (Or.inl h)

theorem resultPrecedes_trans {a b c : Candidate} :
    ResultPrecedes a b → ResultPrecedes b c → ResultPrecedes a c := by
  unfold ResultPrecedes
  rintro (hab | ⟨hs, hab⟩) (hbc | ⟨hs', hbc⟩)
  · exact Or.inl (by linarith)
  · exact Or.inl (by linarith [hs'.ge])
  · exact Or.inl (by linarith [hs.le])
  · refine Or.inr ⟨hs.trans hs', ?_⟩
    rcases hab with ho | ⟨ho, hp⟩
    · rcases hbc with ho' | ⟨ho', _⟩
      · exact Or.inl (ho.trans ho')
      · exact Or.inl (by omega)
    · rcases hbc with ho' | ⟨ho', hp'⟩
      · exact Or.inl (by omega)
      · exact Or.inr ⟨ho.trans ho', hp.trans hp'⟩

theorem mem_insertResult {x c : Candidate} (l : List Candidate) :
    x ∈ insertResult c l ↔ x = c ∨ x ∈ l := by
  induction l with
  | nil => simp [insertResult]
  | cons d ds ih =>
    by_cases h : ResultPrecedes c d
    · simp [insertResult, h]
    · simp only [insertResult, if_neg h, List.mem_cons, ih]
      tauto

theorem pairwise_insertResult (c : Candidate) (l : List Candidate)
    (h : l.Pairwise ResultPrecedes) :
    (insertResult c l).Pairwise ResultPrecedes := by
  induction l with
  | nil => simp [insertResult]
  | cons d ds ih =>
    rw [List.pairwise_cons] at h
    by_cases hcd : ResultPrecedes c d
    · simp only [insertResult, if_pos hcd]
      refine List.Pairwise.cons ?_ (List.Pairwise.cons h.1 h.2)
      intro y hy
      rcases List.mem_cons.mp hy with rfl | hy'
      · exact hcd
      · exact resultPrecedes_trans hcd (h.1 y hy')
    · simp only [insertResult, if_neg hcd]
      refine List.Pairwise.cons ?_ (ih h.2)
      intro y hy
      rcases (mem_insertResult ds).mp hy with rfl | hy'
      · rcases resultPrecedes_total y d with h' | h'
        · exact absurd h' hcd
        · exact h'
      · exact h.1 y hy'

theorem mem_sortResults {x : Candidate} (l : List Candidate) :
    x ∈ sortResults l ↔ x ∈ l := by
  induction l with
  | nil => simp [sortResults]
  | cons c cs ih => simp [sortResults, mem_insertResult, ih]

theorem pairwise_sortResults (l : List Candidate) :
    (sortResults l).Pairwise ResultPrecedes := by
  induction l with
  | nil => simp [sortResults]
  | cons c cs ih => exact pairwise_insertResult c _ ih

theorem mem_dedupeAux {x : Candidate} (l : List Candidate) :
    ∀ seen : List String, x ∈ dedupeAux seen l → x ∈ l := by
  induction l with
  | nil => intro seen h; simp [dedupeAux] at h
  | cons c cs ih =>
    intro seen h
    by_cases hc : c.path ∈ seen
    · simp only [dedupeAux, if_pos hc] at h
      exact List.mem_cons_of_mem _ (ih _ h)
    · simp only [dedupeAux, if_neg hc] at h
      rcases List.mem_cons.mp h with rfl | h'
      · exact List.mem_cons_self _ _
      · exact List.mem_cons_of_mem _ (ih _ h')

theorem dedupeAux_paths_nodup (l : List Candidate) :
    ∀ seen : List String,
      ((dedupeAux seen l).map Candidate.path).Nodup ∧
      ∀ p ∈ (dedupeAux seen l).map Candidate.path, p ∉ seen := by
  induction l with
  | nil => intro seen; simp [dedupeAux]
  | cons c cs ih =>
    intro seen
    by_cases hc : c.path ∈ seen
    · simpa [dedupeAux, hc] using ih seen
    · simp only [dedupeAux, if_neg hc, List.map_cons]
      obtain ⟨ihn, ihs⟩ := ih (c.path :: seen)
      refine ⟨List.nodup_cons.mpr ⟨fun hmem => (ihs _ hmem) (List.mem_cons_self _ _), ihn⟩, ?_⟩
      intro p hp
      rcases List.mem_cons.mp hp with rfl | hp'
      · exact hc
      · exact fun hins => (ihs _ hp') (List.mem_cons_of_mem _ hins)

theorem dedupeAux_sublist (l : List Candidate) :
    ∀ seen : List String, (dedupeAux seen l).Sublist l := by
  induction l with
  | nil => intro seen; simp [dedupeAux]
  | cons c cs ih =>
    intro seen
    by_cases hc : c.path ∈ seen
    · simp only [dedupeAux, if_pos hc]
      exact (ih seen).cons c
    · simp only [dedupeAux, if_neg hc]
      exact (ih _).cons₂ c

theorem dedupeAux_keeps_max (l : List Candidate) :
    ∀ seen : List String, l.Pairwise (fun a b => b.score ≤ a.score) →
      ∀ c ∈ dedupeAux seen l, ∀ x ∈ l, x.path = c.path → x.score ≤ c.score := by
  induction l with
  | nil => intro seen _ c hc; simp [dedupeAux] at hc
  | cons a as ih =>
    intro seen hpw c hc x hx hpath
    rw [List.pairwise_cons] at hpw
    by_cases ha : a.path ∈ seen
    · simp only [dedupeAux, if_pos ha] at hc
      rcases List.mem_cons.mp hx with rfl | hx'
      · have hnot : c.path ∉ seen :=
          (dedupeAux_paths_nodup as seen).2 _ (List.mem_map_of_mem _ hc)
        rw [hpath] at ha
        exact absurd ha hnot
      · exact ih seen hpw.2 c hc x hx' hpath
    · simp only [dedupeAux, if_neg ha] at hc
      rcases List.mem_cons.mp hc with rfl | hc'
      · rcases List.mem_cons.mp hx with rfl | hx'
        · exact le_refl _
        · exact hpw.1 x hx'
      · rcases List.mem_cons.mp hx with rfl | hx'
        · have hnot : c.path ∉ x.path :: seen :=
            (dedupeAux_paths_nodup as (x.path :: seen)).2 _ (List.mem_map_of_mem _ hc')
          rw [hpath] at hnot
          exact absurd (List.mem_cons_self _ _) hnot
        · exact ih _ hpw.2 c hc' x hx' hpath

theorem foldl_min_bounds (l : List Candidate) :
    ∀ init : ℚ, l.foldl (fun a x => min a x.score) init ≤ init ∧
      ∀ x ∈ l, l.foldl (fun a x => min a x.score) init ≤ x.score := by
  induction l with
  | nil => intro init; simp
  | cons c cs ih =>
    intro init
    simp only [List.foldl_cons]
    obtain ⟨h1, h2⟩ := ih (min init c.score)
    refine ⟨h1.trans (min_le_left _ _), ?_⟩
    intro x hx
    rcases List.mem_cons.mp hx with rfl | hx'
    · exact h1.trans (min_le_right _ _)
    · exact h2 x hx'

theorem foldl_max_bounds (l : List Candidate) :
    ∀ init : ℚ, init ≤ l.foldl (fun a x => max a x.score) init ∧
      ∀ x ∈ l, x.score ≤ l.foldl (fun a x => max a x.score) init := by
  induction l with
  | nil => intro init; simp
  | cons c cs ih =>
    intro init
    simp only [List.foldl_cons]
    obtain ⟨h1, h2⟩ := ih (max init c.score)
    refine ⟨(le_max_left _ _).trans h1, ?_⟩
    intro x hx
    rcases List.mem_cons.mp hx with rfl | hx'
    · exact (le_max_right _ _).trans h1
    · exact h2 x hx'

theorem normalizeMinMax_range (l : List Candidate) :
    ∀ y ∈ normalizeMinMax l, 0 ≤ y.score ∧ y.score ≤ 100 := by
  intro y hy
  cases l with
  | nil => simp [normalizeMinMax] at hy
  | cons c cs =>
    simp only [normalizeMinMax, List.mem_map] at hy
    obtain ⟨x, hxmem, rfl⟩ := hy
    simp only
    by_cases heq :
        cs.foldl (fun a x => max a x.score) c.score =
        cs.foldl (fun a x => min a x.score) c.score
    · rw [if_pos heq]
      norm_num
    · rw [if_neg heq]
      have hxlo : cs.foldl (fun a x => min a x.score) c.score ≤ x.score := by
        rcases List.mem_cons.mp hxmem with rfl | hx'
        · exact (foldl_min_bounds cs x.score).1
        · exact (foldl_min_bounds cs c.score).2 x hx'
      have hxhi : x.score ≤ cs.foldl (fun a x => max a x.score) c.score := by
        rcases List.mem_cons.mp hxmem with rfl | hx'
        · exact (foldl_max_bounds cs x.score).1
        · exact (foldl_max_bounds cs c.score).2 x hx'
      have hlt : cs.foldl (fun a x => min a x.score) c.score <
          cs.foldl (fun a x => max a x.score) c.score :=
        lt_of_le_of_ne (hxlo.trans hxhi) (Ne.symm heq)
      have hpos : (0 : ℚ) <
          cs.foldl (fun a x => max a x.score) c.score -
          cs.foldl (fun a x => min a x.score) c.score := by linarith
      constructor
      · have hdiv := div_nonneg (sub_nonneg.mpr hxlo) hpos.le
        positivity
      · have h1 : (x.score - cs.foldl (fun a x => min a x.score) c.score) /
            (cs.foldl (fun a x => max a x.score) c.score -
             cs.foldl (fun a x => min a x.score) c.score) ≤ 1 := by
          rw [div_le_one hpos]
          linarith
        nlinarith [h1]

/-- Claim C1: the reserved "Default" container can never be deleted — the
`delete_container` command is invoked (the handler returns `some name`)
only when the active container differs from "Default", the invoked name is
never "Default", and the delete button is rendered for that state. -/
theorem default_container_never_deleted (active : String) (confirmed : Bool)
    (name : String) (h : handleDeleteContainer active confirmed = some name) :
    active ≠ "Default" ∧ name ≠ "Default" ∧ deleteButtonRendered active = true := by
  by_cases hd : active = "Default"
  · simp [handleDeleteContainer, hd] at h
  · have hn : name = active := by
      by_cases hc : confirmed = true
      · simpa [handleDeleteContainer, hd, hc] using h.symm
      · simp at hc
        simp [handleDeleteContainer, hd, hc] at h
    subst hn
    exact ⟨hd, hd, by simpa [deleteButtonRendered] using hd⟩

/-- Witness for C1 at a concrete non-Default container. -/
theorem default_container_never_deleted_witness :
    ("Work" : String) ≠ "Default" ∧ ("Work" : String) ≠ "Default" ∧
      deleteButtonRendered "Work" = true :=
  default_container_never_deleted "Work" true "Work" (by decide)

/-- Claim C4: after each terminal event — `indexing-complete`,
`model-loaded`, `model-load-error` — the indexing flag is false and the
progress indicator is cleared; `indexing-complete` displays the completion
message and `model-load-error` displays the reason. -/
theorem terminal_events_clear_indexing (s : AppState) (m r : String) :
    ((onIndexingComplete m s).isIndexing = false ∧
      (onIndexingComplete m s).indexProgress = none ∧
      (onIndexingComplete m s).status.carries m = true) ∧
    ((onModelLoaded s).isIndexing = false ∧
      (onModelLoaded s).indexProgress = none) ∧
    ((onModelLoadError r s).isIndexing = false ∧
      (onModelLoadError r s).indexProgress = none ∧
      (onModelLoadError r s).status.carries r = true) := by
  refine ⟨⟨rfl, rfl, ?_⟩, ⟨rfl, rfl⟩, ⟨rfl, rfl, ?_⟩⟩ <;>
    simp [onIndexingComplete, onModelLoadError, StatusText.carries]

/-- Claim C5: the status-bar percentage equals
`round(100 * current / total)` when `total > 0` and `0` otherwise; the
division is guarded, and the value is a well-defined integer (the `ℤ`
codomain of the embedding has no `NaN`). -/
theorem statusBar_pct_formula (ip : IndexingProgress) :
    statusBarPct (some ip) =
      (if 0 < ip.total then jsRound (100 * (ip.current : ℚ) / (ip.total : ℚ)) else 0) ∧
    statusBarPct none = 0 := by
  refine ⟨?_, rfl⟩
  by_cases h : 0 < ip.total
  · simp only [statusBarPct, if_pos h]
    congr 1
    ring
  · simp [statusBarPct, if_neg h]

/-- Claim C6: a successful `reset_index` empties the displayed results and
clears the indexing flag; a rejected one shows the rejection message
verbatim as the status, leaves the results alone, and still clears the
indexing flag. -/
theorem resetIndex_outcomes (s : AppState) (e : String) :
    ((handleResetIndex s (Except.ok ())).results = [] ∧
      (handleResetIndex s (Except.ok ())).isIndexing = false) ∧
    ((handleResetIndex s (Except.error e)).status = StatusText.raw e ∧
      (handleResetIndex s (Except.error e)).isIndexing = false ∧
      (handleResetIndex s (Except.error e)).results = s.results) :=
  ⟨⟨rfl, rfl⟩, rfl, rfl, rfl⟩

/-- Claim C8: stale search responses are never displayed — scheduling a
search bumps the generation counter, a response tagged with any other
generation leaves the state (in particular the result list and the
selected index) unchanged, and the response of the current generation is
the one applied. -/
theorem stale_search_responses_dropped (s : AppState) (q : String) (g : Nat)
    (res : List SearchResult) (msg : String) :
    (jsTrim q ≠ "" →
      (scheduleSearchEffect s q).1.searchGen = s.searchGen + 1 ∧
      (scheduleSearchEffect s q).2 = some (s.searchGen + 1)) ∧
    (g ≠ s.searchGen →
      onSearchSuccess s g res = s ∧ onSearchFailure s g msg = s) ∧
    ((onSearchSuccess s s.searchGen res).results = res ∧
      (onSearchSuccess s s.searchGen res).selectedIndex = 0) := by
  refine ⟨fun hq => ?_, fun hg => ?_, ?_⟩
  · simp [scheduleSearchEffect, hq]
  · have hg' : s.searchGen ≠ g := fun h => hg h.symm
    exact ⟨by simp [onSearchSuccess, hg'], by simp [onSearchFailure, hg']⟩
  · simp [onSearchSuccess]

/-- Witness for C8: with the generation counter at 2, a response tagged 1
is dropped wholesale. -/
theorem stale_search_responses_dropped_witness :
    onSearchSuccess
        { results := [], selectedIndex := 0, status := StatusText.raw "",
          isIndexing := false, indexProgress := none, searchGen := 2 } 1 [] =
      { results := [], selectedIndex := 0, status := StatusText.raw "",
        isIndexing := false, indexProgress := none, searchGen := 2 } :=
  ((stale_search_responses_dropped
      { results := [], selectedIndex := 0, status := StatusText.raw "",
        isIndexing := false, indexProgress := none, searchGen := 2 }
      "q" 1 [] "m").2.1 (by decide)).1

/-- Claim C9: a query whose trimmed form is empty never invokes the search
command (nothing is scheduled) and sets the displayed result list to
empty. -/
theorem empty_query_skips_search (s : AppState) (q : String)
    (h : jsTrim q = "") :
    scheduleSearchEffect s q = ({ s with results := [] }, none) := by
  simp [scheduleSearchEffect, h]

/-- Witness for C9 at a whitespace-only query. -/
theorem empty_query_skips_search_witness :
    scheduleSearchEffect
        { results := [⟨"p", "s", 50⟩], selectedIndex := 0,
          status := StatusText.raw "", isIndexing := false,
          indexProgress := none, searchGen := 0 } "  \n " =
      ({ results := [], selectedIndex := 0, status := StatusText.raw "",
         isIndexing := false, indexProgress := none, searchGen := 0 }, none) :=
  empty_query_skips_search _ "  \n " (by decide)

theorem isPrefixOf_append_left (xs ys : List Char) :
    ∀ l : List Char, (xs ++ ys).isPrefixOf l = true → xs.isPrefixOf l = true := by
  induction xs with
  | nil => intro l _; simp [List.isPrefixOf]
  | cons a as ih =>
    intro l h
    cases l with
    | nil => simp [List.isPrefixOf] at h
    | cons b bs =>
      simp only [List.cons_append, List.isPrefixOf, Bool.and_eq_true] at h ⊢
      exact ⟨h.1, ih bs h.2⟩

theorem listReplaceFirst_at_front (pat repl l : List Char)
    (h : pat.isPrefixOf l = true) :
    listReplaceFirst pat repl l = repl ++ l.drop pat.length := by
  cases l with
  | nil => simp [listReplaceFirst, h]
  | cons c cs => simp [listReplaceFirst, h]

/-- Claim C7 counterexample: for the snippet
`"[annotation]x [annotation] y"`, which begins with `"[annotation]"`, the
row is given the annotation icon and badge, yet the marker prefix is not
stripped from the displayed snippet — `replace` removes the first
occurrence of `"[annotation] "`, which here sits mid-string — so the
claimed equivalence fails at this input. -/
theorem row_annotation_iff_counterexample :
    ¬(((renderRow ⟨"note.md", "[annotation]x [annotation] y", 50⟩ "np").showsAnnotationIcon = true ∧
        (renderRow ⟨"note.md", "[annotation]x [annotation] y", 50⟩ "np").showsAnnotationBadge = true ∧
        (renderRow ⟨"note.md", "[annotation]x [annotation] y", 50⟩ "np").displayedSnippet =
          claimStrippedSnippet "[annotation]x [annotation] y") ↔
      strStartsWith "[annotation]x [annotation] y" "[annotation]" = true) := by
  decide

/-- Claim C7 as amended: the annotation icon and the annotation badge are
shown iff the snippet begins with `"[annotation]"`; the displayed snippet
has the first occurrence of `"[annotation] "` (marker plus space) removed,
which strips the marker prefix exactly when the snippet begins with
`"[annotation] "`. -/
theorem row_annotation_rendering (r : SearchResult) (npv : String) :
    ((renderRow r npv).showsAnnotationIcon = true ↔
      strStartsWith r.snippet "[annotation]" = true) ∧
    ((renderRow r npv).showsAnnotationBadge = true ↔
      strStartsWith r.snippet "[annotation]" = true) ∧
    (strStartsWith r.snippet "[annotation] " = true →
      (renderRow r npv).displayedSnippet = strDrop r.snippet 13) := by
  refine ⟨by simp [renderRow, isAnnotationTag], by simp [renderRow, isAnnotationTag], ?_⟩
  intro h13
  have hsplit : ("[annotation] " : String).toList =
      ("[annotation]" : String).toList ++ [' '] := by decide
  have h12 : strStartsWith r.snippet "[annotation]" = true := by
    refine isPrefixOf_append_left _ [' '] _ ?_
    rw [← hsplit]
    exact h13
  have hlen : ("[annotation] " : String).toList.length = 13 := by decide
  simp only [renderRow, isAnnotationTag, h12, if_true, replaceFirstStr]
  rw [listReplaceFirst_at_front _ _ _ h13]
  simp [strDrop, hlen]

/-- Witness for the amended C7 at a well-formed annotation snippet. -/
theorem row_annotation_rendering_witness :
    (renderRow ⟨"a.md", "[annotation] hello", 90⟩ "np").displayedSnippet =
      strDrop "[annotation] hello" 13 :=
  (row_annotation_rendering ⟨"a.md", "[annotation] hello", 90⟩ "np").2.2 (by decide)

/-- Claim C10 counterexample: for the user-entered dimensions string
`"-5"`, both forms pass `-5` — a parse that succeeds with a nonzero but
negative value is neither replaced by 1024 nor positive. -/
theorem remote_dimensions_counterexample :
    providerSettingsRemoteDimensions "-5" = -5 ∧
    createContainerRemoteDimensions "-5" = -5 ∧
    ¬(0 < providerSettingsRemoteDimensions "-5") := by
  decide

/-- Claim C10 as amended: the dimension passed is a nonzero integer —
`parseInt` output when it parses to a nonzero value (negative values pass
through unchanged), and the default 1024 when parsing fails (`NaN`) or
yields 0; the creation form also defaults an empty string to 1024. -/
theorem remote_dimensions_amended (s : String) :
    providerSettingsRemoteDimensions s ≠ 0 ∧
    createContainerRemoteDimensions "" = 1024 ∧
    (jsParseInt s = none → providerSettingsRemoteDimensions s = 1024) ∧
    (jsParseInt s = some 0 → providerSettingsRemoteDimensions s = 1024) ∧
    (∀ n : Int, jsParseInt s = some n → n ≠ 0 →
      providerSettingsRemoteDimensions s = n ∧
      createContainerRemoteDimensions s = n) := by
  refine ⟨?_, by decide, ?_, ?_, ?_⟩
  · unfold providerSettingsRemoteDimensions jsParseIntOr1024
    cases h : jsParseInt s with
    | none => norm_num
    | some n =>
      by_cases hn : n = 0
      · simp [hn]
      · simp [hn]
  · intro h
    simp [providerSettingsRemoteDimensions, jsParseIntOr1024, h]
  · intro h
    simp [providerSettingsRemoteDimensions, jsParseIntOr1024, h]
  · intro n h hn
    have hs : s ≠ "" := by
      intro he
      rw [he] at h
      simp [jsParseInt, isJsWhitespace] at h
    constructor
    · simp [providerSettingsRemoteDimensions, jsParseIntOr1024, h, hn]
    · simp [createContainerRemoteDimensions, jsParseIntOr1024, hs, h, hn]

/-- Witness for the amended C10: a failing parse falls back to 1024 and a
negative parse passes through. -/
theorem remote_dimensions_amended_witness :
    providerSettingsRemoteDimensions "abc" = 1024 ∧
    providerSettingsRemoteDimensions "-5" = -5 :=
  ⟨(remote_dimensions_amended "abc").2.2.1 (by decide),
   ((remote_dimensions_amended "-5").2.2.2.2 (-5) (by decide) (by decide)).1⟩

/-- Claim C2: every search response contains at most one fragment per
owning path — the path list of the pipeline output has no duplicates —
and the survivor of per-file deduplication is the highest-scoring
candidate of its path among the normalised, ordered candidate set. -/
theorem searchPipeline_dedup_per_path (cands : List Candidate)
    (minScore : ℚ) (topK : Nat) :
    ((searchPipeline cands minScore topK).map Candidate.path).Nodup ∧
    ∀ c ∈ searchPipeline cands minScore topK,
      ∀ x ∈ sortResults (normalizeMinMax cands),
        x.path = c.path → x.score ≤ c.score := by
  unfold searchPipeline dedupeByPath
  constructor
  · have hsub :
        ((((dedupeAux [] (sortResults (normalizeMinMax cands))).filter
            fun c => minScore ≤ c.score).take topK).map Candidate.path).Sublist
          ((dedupeAux [] (sortResults (normalizeMinMax cands))).map Candidate.path) :=
      List.Sublist.map _ ((List.take_sublist _ _).trans (List.filter_sublist _))
    exact List.Nodup.sublist hsub (dedupeAux_paths_nodup _ []).1
  · intro c hc x hx hpath
    have hc' : c ∈ dedupeAux [] (sortResults (normalizeMinMax cands)) :=
      (((List.take_sublist _ _).trans (List.filter_sublist _)).subset) hc
    have hpw : (sortResults (normalizeMinMax cands)).Pairwise
        (fun a b => b.score ≤ a.score) := by
      refine (pairwise_sortResults _).imp ?_
      intro a b hab
      rcases hab with h | ⟨h, _⟩
      · exact h.le
      · exact h.symm.le
    exact dedupeAux_keeps_max _ [] hpw c hc' x hx hpath

/-- Claim C3: every score of a search response lies in [0, 100], and the
response is ordered by descending score with ties broken by fragment
ordinal then path (each element `ResultPrecedes` every later one). -/
theorem searchPipeline_scores_sorted (cands : List Candidate)
    (minScore : ℚ) (topK : Nat) :
    (∀ c ∈ searchPipeline cands minScore topK,
      0 ≤ c.score ∧ c.score ≤ 100) ∧
    (searchPipeline cands minScore topK).Pairwise ResultPrecedes := by
  unfold searchPipeline dedupeByPath
  have hsub :
      ((((dedupeAux [] (sortResults (normalizeMinMax cands))).filter
          fun c => minScore ≤ c.score).take topK)).Sublist
        (sortResults (normalizeMinMax cands)) :=
    (((List.take_sublist _ _).trans (List.filter_sublist _)).trans
      (dedupeAux_sublist _ []))
  constructor
  · intro c hc
    exact normalizeMinMax_range _ _ ((mem_sortResults _).mp (hsub.subset hc))
  · exact List.Pairwise.sublist hsub (pairwise_sortResults _)

/-- Witness for C2 on a singleton candidate set, whose only candidate
normalises to score 100 and survives deduplication. -/
theorem searchPipeline_dedup_per_path_witness :
    ((searchPipeline [⟨0, "a", 0, "t", 5⟩] (0 : ℚ) 10).map Candidate.path).Nodup ∧
    (⟨0, "a", 0, "t", (100 : ℚ)⟩ : Candidate).score ≤
      (⟨0, "a", 0, "t", (100 : ℚ)⟩ : Candidate).score := by
  have h := searchPipeline_dedup_per_path [⟨0, "a", 0, "t", 5⟩] 0 10
  refine ⟨h.1, ?_⟩
  have hs : sortResults (normalizeMinMax [(⟨0, "a", 0, "t", 5⟩ : Candidate)]) =
      [⟨0, "a", 0, "t", 100⟩] := by
    norm_num [normalizeMinMax, sortResults, insertResult]
  have hp : searchPipeline [(⟨0, "a", 0, "t", 5⟩ : Candidate)] 0 10 =
      [⟨0, "a", 0, "t", 100⟩] := by
    norm_num [searchPipeline, dedupeByPath, dedupeAux, normalizeMinMax,
      sortResults, insertResult, List.filter]
  exact h.2 _ (by rw [hp]; exact List.mem_singleton_self _) _
    (by rw [hs]; exact List.mem_singleton_self _) rfl

/-- Witness for C3 on the same singleton candidate set. -/
theorem searchPipeline_scores_sorted_witness :
    (0 ≤ (⟨0, "a", 0, "t", (100 : ℚ)⟩ : Candidate).score ∧
      (⟨0, "a", 0, "t", (100 : ℚ)⟩ : Candidate).score ≤ 100) ∧
    (searchPipeline [⟨0, "a", 0, "t", 5⟩] (0 : ℚ) 10).Pairwise ResultPrecedes := by
  have h := searchPipeline_scores_sorted [⟨0, "a", 0, "t", 5⟩] 0 10
  refine ⟨?_, h.2⟩
  have hp : searchPipeline [(⟨0, "a", 0, "t", 5⟩ : Candidate)] 0 10 =
      [⟨0, "a", 0, "t", 100⟩] := by
    norm_num [searchPipeline, dedupeByPath, dedupeAux, normalizeMinMax,
      sortResults, insertResult, List.filter]
  exact h.1 _ (by rw [hp]; exact List.mem_singleton_self _)

end Rememex
